import Mathlib

/-!
Verification of the grump repository (a Go vulnerability scan-and-fix tool)
against its natural-language specification.

Go strings are modelled as `List Char` (the sources only ever treat them as
byte sequences compared byte-wise).  The version-handling helpers from
`golang.org/x/mod/semver` that the repository calls (`IsValid`, `Canonical`,
`Compare`) are embedded in full, following the library sources function by
function.  The repository's own code under `pkg/scanner`, `pkg/patcher`,
`pkg/reporter` and `cmd/grump` is embedded below, keeping the source names.
-/

set_option maxRecDepth 4000

namespace Grump

/-- Go byte-wise lexicographic strict string comparison `x < y`,
modelled on `List Char`. -/
def goStrLt : List Char → List Char → Bool
  | [], [] => false
  | [], _ :: _ => true
  | _ :: _, [] => false
  | a :: as, b :: bs => if a < b then true else if b < a then false else goStrLt as bs

/-- ASCII digit test, as used throughout `golang.org/x/mod/semver`. -/
def svDigit (c : Char) : Bool := decide ('0' ≤ c) && decide (c ≤ '9')

/-- Embedding of `semver.isIdentChar`: ASCII alphanumerics and hyphen. -/
def svIdentChar (c : Char) : Bool :=
  (decide ('A' ≤ c) && decide (c ≤ 'Z')) || (decide ('a' ≤ c) && decide (c ≤ 'z'))
    || svDigit c || decide (c = '-')

/-- Embedding of `semver.isBadNum`: an all-digit identifier of length larger
than one with a leading zero. -/
def svBadNum (v : List Char) : Bool :=
  ((v.takeWhile svDigit).length == v.length) && decide (1 < v.length)
    && (v.headD 'x' == '0')

/-- Embedding of `semver.isNum`: every byte is a digit. -/
def svNum (v : List Char) : Bool := (v.takeWhile svDigit).length == v.length

/-- Embedding of `semver.parseInt`: a nonempty run of leading digits with no
leading zero (unless the number is exactly "0"); returns the digits and the
rest of the string. -/
def parseIntSV : List Char → Option (List Char × List Char)
  | [] => none
  | c :: cs =>
    if svDigit c then
      let t := c :: cs.takeWhile svDigit
      let rest := cs.dropWhile svDigit
      if c == '0' && t.length != 1 then none else some (t, rest)
    else none

/-- Splits a character list at every dot, the way the scanning loops of
`semver.parsePrerelease` and `semver.parseBuild` delimit identifiers. -/
def splitDots : List Char → List (List Char)
  | [] => [[]]
  | c :: cs =>
    if c = '.' then [] :: splitDots cs
    else
      match splitDots cs with
      | [] => [[c]]
      | s :: ss => (c :: s) :: ss

/-- Embedding of `semver.parsePrerelease`: a '-' followed by dot-separated,
nonempty identifiers of alphanumerics and hyphens (numeric identifiers may
not have leading zeros), scanning up to the first '+' or the end. -/
def parsePrereleaseSV (v : List Char) : Option (List Char × List Char) :=
  match v with
  | [] => none
  | c :: cs =>
    if c != '-' then none
    else
      let body := cs.takeWhile (fun x => x != '+')
      let rest := cs.dropWhile (fun x => x != '+')
      if body.all (fun x => svIdentChar x || x == '.')
          && (splitDots body).all (fun seg => !seg.isEmpty && !svBadNum seg) then
        some (c :: body, rest)
      else none

/-- Embedding of `semver.parseBuild`: a '+' followed by dot-separated,
nonempty identifiers of alphanumerics, hyphens and dots, consuming the whole
remaining string. -/
def parseBuildSV (v : List Char) : Option (List Char × List Char) :=
  match v with
  | [] => none
  | c :: cs =>
    if c != '+' then none
    else
      if cs.all (fun x => svIdentChar x || x == '.')
          && (splitDots cs).all (fun seg => !seg.isEmpty) then
        some (c :: cs, [])
      else none

/-- The `parsed` struct of `golang.org/x/mod/semver`. -/
structure SvParsed where
  major : List Char
  minor : List Char
  patch : List Char
  short : List Char
  prerelease : List Char
  build : List Char
deriving DecidableEq

/-- Tail of `semver.parse` after the patch number: optional prerelease,
optional build, and nothing else may remain. -/
def svparseTail (maj minr pat : List Char) (v5 : List Char) : Option SvParsed :=
  match v5 with
  | [] => some ⟨maj, minr, pat, [], [], []⟩
  | c :: _ =>
    if c = '-' then
      match parsePrereleaseSV v5 with
      | none => none
      | some (pre, v6) =>
        match v6 with
        | [] => some ⟨maj, minr, pat, [], pre, []⟩
        | d :: _ =>
          if d = '+' then
            match parseBuildSV v6 with
            | none => none
            | some (bld, _) => some ⟨maj, minr, pat, [], pre, bld⟩
          else none
    else if c = '+' then
      match parseBuildSV v5 with
      | none => none
      | some (bld, _) => some ⟨maj, minr, pat, [], [], bld⟩
    else none

/-- Embedding of `semver.parse`: a leading 'v', then major, optionally
".minor" and ".minor.patch" (missing parts default to zero and are recorded
in `short`), then optional prerelease and build parts. -/
def svparse (v : List Char) : Option SvParsed :=
  match v with
  | [] => none
  | c :: cs =>
    if c != 'v' then none
    else
      match parseIntSV cs with
      | none => none
      | some (maj, v1) =>
        match v1 with
        | [] => some ⟨maj, ['0'], ['0'], ['.', '0', '.', '0'], [], []⟩
        | '.' :: v2 =>
          match parseIntSV v2 with
          | none => none
          | some (minr, v3) =>
            match v3 with
            | [] => some ⟨maj, minr, ['0'], ['.', '0'], [], []⟩
            | '.' :: v4 =>
              match parseIntSV v4 with
              | none => none
              | some (pat, v5) => svparseTail maj minr pat v5
            | _ => none
        | _ => none

/-- Embedding of `semver.IsValid`. -/
def svIsValid (v : List Char) : Bool := (svparse v).isSome

/-- Embedding of `semver.Canonical`: strips build metadata and completes a
short form with its missing ".0" parts; empty for invalid versions. -/
def svCanonical (v : List Char) : List Char :=
  match svparse v with
  | none => []
  | some p =>
    if !p.build.isEmpty then v.take (v.length - p.build.length)
    else if !p.short.isEmpty then v ++ p.short
    else v

/-- Embedding of `semver.compareInt`: shorter digit strings are smaller,
equal-length digit strings compare byte-wise. -/
def compareIntSV (x y : List Char) : Int :=
  if x = y then 0
  else if x.length < y.length then -1
  else if y.length < x.length then 1
  else if goStrLt x y then -1
  else 1

/-- Comparison of one pair of prerelease identifiers, as in the body of the
loop of `semver.comparePrerelease` when the identifiers differ: numeric
identifiers sort before alphanumeric ones; among numeric identifiers the
shorter digit string is smaller; equal-length or alphanumeric identifiers
compare byte-wise. -/
def cmpOneIdent (dx dy : List Char) : Int :=
  if svNum dx ≠ svNum dy then (if svNum dx then -1 else 1)
  else if svNum dx && decide (dx.length < dy.length) then -1
  else if svNum dx && decide (dy.length < dx.length) then 1
  else if goStrLt dx dy then -1
  else 1

/-- The loop of `semver.comparePrerelease` over the dot-separated identifier
sequences it scans: the first differing pair of identifiers decides; when
one side runs out of identifiers first it is smaller (and when both run out
together the Go loop's `x == ""` exit also answers smaller-or-first). -/
def cmpIdents : List (List Char) → List (List Char) → Int
  | [], _ => -1
  | _ :: _, [] => 1
  | dx :: dxs, dy :: dys => if dx ≠ dy then cmpOneIdent dx dy else cmpIdents dxs dys

/-- Embedding of the scanning loop of `semver.comparePrerelease`: both
arguments start with a separator byte ('-' on entry), which the Go loop
skips without inspection; the remainder is the dot-separated identifier
sequence compared by `cmpIdents`. -/
def comparePreLoop : List Char → List Char → Int
  | [], _ => -1
  | _ :: _, [] => 1
  | _ :: xs, _ :: ys => cmpIdents (splitDots xs) (splitDots ys)

/-- Embedding of `semver.comparePrerelease`: the empty prerelease (a release
version) sorts above every nonempty prerelease; otherwise the loop above. -/
def comparePrereleaseSV (x y : List Char) : Int :=
  if x = y then 0
  else if x.isEmpty then 1
  else if y.isEmpty then -1
  else comparePreLoop x y

/-- Embedding of `semver.Compare`: invalid sorts below valid, two invalid
strings compare equal, and valid versions compare by major, minor, patch,
then prerelease. -/
def svCompare (v w : List Char) : Int :=
  match svparse v, svparse w with
  | none, none => 0
  | none, some _ => -1
  | some _, none => 1
  | some pv, some pw =>
    if compareIntSV pv.major pw.major ≠ 0 then compareIntSV pv.major pw.major
    else if compareIntSV pv.minor pw.minor ≠ 0 then compareIntSV pv.minor pw.minor
    else if compareIntSV pv.patch pw.patch ≠ 0 then compareIntSV pv.patch pw.patch
    else comparePrereleaseSV pv.prerelease pw.prerelease

/-- Embedding of `shouldSkipUpdate` (pkg/patcher/patcher.go): when both
versions are valid semver, skip iff the applied version compares greater or
equal per `semver.Compare`; otherwise fall back to Go's byte-wise string
comparison `appliedVersion >= targetVersion`. -/
def shouldSkipUpdate (appliedVersion targetVersion : List Char) : Bool :=
  if svIsValid appliedVersion && svIsValid targetVersion then
    decide (0 ≤ svCompare appliedVersion targetVersion)
  else
    !goStrLt appliedVersion targetVersion

/-- Helper for `goIndex`, recursing over the searched string. -/
def goIndexAux (sub : List Char) : List Char → Option Nat
  | [] => if sub.isEmpty then some 0 else none
  | c :: t =>
    if sub.isPrefixOf (c :: t) then some 0
    else (goIndexAux sub t).map (fun n => n + 1)

/-- Embedding of Go `strings.Index s sub`: the position of the first
occurrence of `sub` in `s`, if any (Go returns -1, modelled as `none`). -/
def goIndex (s sub : List Char) : Option Nat := goIndexAux sub s

/-- The major.minor.patch core that `normalizeVersion`
(pkg/scanner/scanner.go) computes: `semver.Canonical` with the leading 'v'
(which `Canonical` always adds) stripped via `strings.HasPrefix`. -/
def canonicalCore (v : List Char) : List Char :=
  if (svCanonical v).headD ' ' = 'v' then (svCanonical v).drop 1 else svCanonical v

/-- Embedding of the body of `normalizeVersion` after the validity check:
find the canonical core in the current version and prepend everything to the
left of its first occurrence to the target version. -/
def normalizeVersion (currentVersion targetVersion : List Char) : List Char :=
  if !svIsValid currentVersion then targetVersion
  else
    match goIndex currentVersion (canonicalCore currentVersion) with
    | none => targetVersion
    | some idx => currentVersion.take idx ++ targetVersion

/-- Embedding of `module.Check` (golang.org/x/mod/module): first the module
path is validated (`CheckPath`), then the version must be valid semver, then
the version's major number must be consistent with the path's major-version
suffix (`CheckPathMajor`).  Path validation and the major-suffix check never
influence any behaviour verified here (the repository only consults
`module.Check` on versions that already failed `semver.IsValid`, where
`Check` errors regardless), so they are abstracted as the parameters
`pathOK` and `pathMajorOK`; every theorem below quantifies over them. -/
def moduleCheck (pathOK : List Char → Bool) (pathMajorOK : List Char → List Char → Bool)
    (path version : List Char) : Bool :=
  if !pathOK path then false
  else if !svIsValid version then false
  else pathMajorOK path version

/-- Embedding of `isValidGoVersion` (pkg/scanner/scanner.go): valid semver,
or else a successful `module.Check`. -/
def isValidGoVersion (pathOK : List Char → Bool) (pathMajorOK : List Char → List Char → Bool)
    (pkgName version : List Char) : Bool :=
  if svIsValid version then true
  else moduleCheck pathOK pathMajorOK pkgName version














/-- The `PackageUpdate` struct of pkg/scanner/scanner.go. -/
structure PackageUpdate where
  Name : List Char
  CurrentVersion : List Char
  TargetVersion : List Char
  VulnID : List Char
  Severity : List Char
deriving DecidableEq

/-- The fix descriptor carried by a grype vulnerability: candidate fixed
versions and a fix-state tag (`vulnerability.FixStateFixed` is the string
"fixed"). -/
structure FixDescriptor where
  Versions : List (List Char)
  State : List Char
deriving DecidableEq

/-- The slice of grype vulnerability metadata that `GetFixableUpdates`
reads: the severity label.  The Go field is a nilable pointer, modelled as
`Option`. -/
structure VulnMetadata where
  Severity : List Char
deriving DecidableEq

/-- The slice of a grype vulnerability that `GetFixableUpdates` reads. -/
structure Vulnerability where
  ID : List Char
  Fix : FixDescriptor
  Metadata : Option VulnMetadata
deriving DecidableEq

/-- The slice of a grype/syft package that `GetFixableUpdates` reads; `Type`
holds the syft package-kind tag (`syftPkg.GoModulePkg` is "go-module"). -/
structure MatchPackage where
  Name : List Char
  Version : List Char
  PkgType : List Char
deriving DecidableEq

/-- One vulnerability match as enumerated from the grype match collection. -/
structure VulnMatch where
  Package : MatchPackage
  Vulnerability : Vulnerability
deriving DecidableEq

/-- The syft constant `GoModulePkg`. -/
def goModulePkg : List Char := "go-module".toList

/-- The grype constant `FixStateFixed`. -/
def fixStateFixed : List Char := "fixed".toList

/-- Embedding of `GetFixableUpdates` (pkg/scanner/scanner.go), over the list
of matches in enumeration order: keep Go-module packages whose fix state is
"fixed" with a nonempty candidate list, take the first candidate, drop it if
empty, normalize it against the current version, drop it if the normalized
version fails `isValidGoVersion`, and emit a `PackageUpdate` whose severity
comes from the metadata when present and is "Unknown" otherwise. -/
def GetFixableUpdates (pathOK : List Char → Bool)
    (pathMajorOK : List Char → List Char → Bool) :
    List VulnMatch → List PackageUpdate
  | [] => []
  | m :: ms =>
    if m.Package.PkgType ≠ goModulePkg then GetFixableUpdates pathOK pathMajorOK ms
    else if m.Vulnerability.Fix.Versions.length = 0
        ∨ m.Vulnerability.Fix.State ≠ fixStateFixed then
      GetFixableUpdates pathOK pathMajorOK ms
    else
      let suggestedVersion :=
        if 0 < m.Vulnerability.Fix.Versions.length then
          m.Vulnerability.Fix.Versions.headD []
        else []
      if suggestedVersion = [] then GetFixableUpdates pathOK pathMajorOK ms
      else
        let normalizedVersion := normalizeVersion m.Package.Version suggestedVersion
        if !isValidGoVersion pathOK pathMajorOK m.Package.Name normalizedVersion then
          GetFixableUpdates pathOK pathMajorOK ms
        else
          let severity :=
            match m.Vulnerability.Metadata with
            | none => "Unknown".toList
            | some md => md.Severity
          ⟨m.Package.Name, m.Package.Version, normalizedVersion,
            m.Vulnerability.ID, severity⟩ :: GetFixableUpdates pathOK pathMajorOK ms

/-- The `UpdateResult` struct of pkg/patcher/patcher.go; the error returned
by `UpdatePackage` is modelled as `Option (List Char)` (`none` = nil). -/
structure UpdateResult where
  Update : PackageUpdate
  Success : Bool
  Error : Option (List Char)
deriving DecidableEq

/-- One invocation of the external mutation engine (`p.UpdatePackage`),
instrumented with the applied version recorded for the package at the
moment of the call (`prior`) and with the call's outcome. -/
structure EngineCall where
  name : List Char
  target : List Char
  prior : Option (List Char)
  success : Bool
deriving DecidableEq

/-- Loop state of `UpdateAll` (pkg/patcher/patcher.go): accumulated results,
the `appliedVersions` map (an association list keyed by package name), and
the trace of mutation-engine invocations made so far. -/
structure ApplyState where
  results : List UpdateResult
  applied : List (List Char × List Char)
  calls : List EngineCall
deriving DecidableEq

/-- Lookup in the `appliedVersions` map. -/
def lookupApplied : List (List Char × List Char) → List Char → Option (List Char)
  | [], _ => none
  | (k, v) :: rest, n => if k = n then some v else lookupApplied rest n

/-- Store into the `appliedVersions` map (overwrite or insert). -/
def setApplied : List (List Char × List Char) → List Char → List Char →
    List (List Char × List Char)
  | [], n, ver => [(n, ver)]
  | (k, v) :: rest, n, ver =>
    if k = n then (n, ver) :: rest else (k, v) :: setApplied rest n ver

/-- The attempt branch of the `UpdateAll` loop: invoke the mutation engine
(whose error for the n-th call overall is `engineErr n`), append the
`UpdateResult` with `Success = (err == nil)`, and on success record the
applied version. -/
def applyOne (engineErr : Nat → Option (List Char)) (s : ApplyState)
    (u : PackageUpdate) (priorV : Option (List Char)) : ApplyState :=
  let e := engineErr s.calls.length
  ⟨s.results ++ [⟨u, e.isNone, e⟩],
    if e.isNone then setApplied s.applied u.Name u.TargetVersion else s.applied,
    s.calls ++ [⟨u.Name, u.TargetVersion, priorV, e.isNone⟩]⟩

/-- One iteration of the `UpdateAll` loop (pkg/patcher/patcher.go:82-105):
when the package already has a recorded applied version and
`shouldSkipUpdate` says to skip, do nothing; otherwise attempt the update. -/
def updateAllStep (engineErr : Nat → Option (List Char)) (s : ApplyState)
    (u : PackageUpdate) : ApplyState :=
  match lookupApplied s.applied u.Name with
  | some appliedVersion =>
    if shouldSkipUpdate appliedVersion u.TargetVersion then s
    else applyOne engineErr s u (some appliedVersion)
  | none => applyOne engineErr s u none

/-- The full `UpdateAll` loop from the empty initial state. -/
def updateAllState (engineErr : Nat → Option (List Char))
    (updates : List PackageUpdate) : ApplyState :=
  updates.foldl (updateAllStep engineErr) ⟨[], [], []⟩

/-- Embedding of `UpdateAll` (pkg/patcher/patcher.go:76-114): run the loop,
then run `RunGoTidy`; a tidy failure (`tidyErr`) is only logged as a warning
(patcher.go:108-111) and the accumulated results are returned unchanged. -/
def UpdateAll (engineErr : Nat → Option (List Char)) (_tidyErr : Option (List Char))
    (updates : List PackageUpdate) : List UpdateResult :=
  (updateAllState engineErr updates).results

/-- The `ResultStats` struct of pkg/reporter/reporter.go (the Go ints are
only ever incremented from zero, hence `Nat`). -/
structure ResultStats where
  PackagesUpdated : Nat
  PackagesFailed : Nat
  VulnerabilitiesFixed : Nat
  VulnerabilitiesFailed : Nat
deriving DecidableEq

/-- Membership in the `updatedPackages` map of `AnalyzeResults`, modelled as
a list of names. -/
def memName : List (List Char) → List Char → Bool
  | [], _ => false
  | k :: rest, n => if k = n then true else memName rest n

/-- One iteration of the first loop of `AnalyzeResults`
(pkg/reporter/reporter.go:36-43): count a successful result into
`PackagesUpdated` and record its package name, count a failed result into
`PackagesFailed`. -/
def analyzeStep1 (acc : ResultStats × List (List Char)) (r : UpdateResult) :
    ResultStats × List (List Char) :=
  if r.Success then
    (⟨acc.1.PackagesUpdated + 1, acc.1.PackagesFailed,
      acc.1.VulnerabilitiesFixed, acc.1.VulnerabilitiesFailed⟩,
      r.Update.Name :: acc.2)
  else
    (⟨acc.1.PackagesUpdated, acc.1.PackagesFailed + 1,
      acc.1.VulnerabilitiesFixed, acc.1.VulnerabilitiesFailed⟩, acc.2)

/-- The first loop of `AnalyzeResults` over all results. -/
def analyzePass1 (results : List UpdateResult) : ResultStats × List (List Char) :=
  results.foldl analyzeStep1 (⟨0, 0, 0, 0⟩, [])

/-- One iteration of the second loop of `AnalyzeResults`
(pkg/reporter/reporter.go:46-62): an update whose package is among the
successfully updated names counts as a fixed vulnerability; otherwise it
counts as a failed one when some result for its package failed. -/
def analyzeStep2 (results : List UpdateResult) (succNames : List (List Char))
    (st : ResultStats) (u : PackageUpdate) : ResultStats :=
  if memName succNames u.Name then
    ⟨st.PackagesUpdated, st.PackagesFailed,
      st.VulnerabilitiesFixed + 1, st.VulnerabilitiesFailed⟩
  else if results.any (fun r => r.Update.Name == u.Name && !r.Success) then
    ⟨st.PackagesUpdated, st.PackagesFailed,
      st.VulnerabilitiesFixed, st.VulnerabilitiesFailed + 1⟩
  else st

/-- Embedding of `AnalyzeResults` (pkg/reporter/reporter.go:31-65): the
counting pass over results, then the vulnerability pass over updates. -/
def AnalyzeResults (updates : List PackageUpdate) (results : List UpdateResult) :
    ResultStats :=
  updates.foldl (analyzeStep2 results (analyzePass1 results).2) (analyzePass1 results).1

/-- Embedding of `run` (cmd/grump/main.go:76-128).  The external effects are
parameters: `newScannerErr` is the error from `scanner.New`, `scanOutcome`
the error or match list from `Scan`, `patcherNewErr` the error from
`patcher.New`, `engineErr` the mutation-engine outcomes consumed by
`UpdateAll`, `tidyErr` the outcome of the final `RunGoTidy`, and `reportErr`
the error from `ReportResults`.  Returns the process exit code. -/
def run (pathOK : List Char → Bool) (pathMajorOK : List Char → List Char → Bool)
    (newScannerErr : Option (List Char)) (scanOutcome : Except (List Char) (List VulnMatch))
    (patcherNewErr : Option (List Char)) (engineErr : Nat → Option (List Char))
    (tidyErr : Option (List Char)) (reportErr : Option (List Char)) : Nat :=
  if newScannerErr.isSome then 2
  else
    match scanOutcome with
    | .error _ => 2
    | .ok foundMatches =>
      let updates := GetFixableUpdates pathOK pathMajorOK foundMatches
      if updates.length = 0 then 0
      else if patcherNewErr.isSome then 2
      else
        let results := UpdateAll engineErr tidyErr updates
        if reportErr.isSome then 2
        else if results.any (fun r => !r.Success) then 1
        else 0

/-- The target version of the most recent successful mutation-engine call
for package `n` in the call trace `cs` (later calls take precedence). -/
def lastSuccess (n : List Char) : List EngineCall → Option (List Char)
  | [] => none
  | c :: rest =>
    match lastSuccess n rest with
    | some t => some t
    | none => if c.name = n ∧ c.success = true then some c.target else none

/-- Invariant of the `UpdateAll` loop state tying the call trace to the
`appliedVersions` map: no engine call is made with a target the recorded
applied version would have skipped; the map records exactly the most recent
successful call for each package; and each call's recorded `prior` version
is the most recent successful call for its package among the strictly
earlier calls. -/
def CallsInv (s : ApplyState) : Prop :=
  (∀ c ∈ s.calls, ∀ av, c.prior = some av → shouldSkipUpdate av c.target = false)
  ∧ (∀ n, lookupApplied s.applied n = lastSuccess n s.calls)
  ∧ (∀ i, ∀ h : i < s.calls.length,
      (s.calls.get ⟨i, h⟩).prior =
        lastSuccess (s.calls.get ⟨i, h⟩).name (s.calls.take i))

/-- Restatement of the extraction condition of `GetFixableUpdates` in the
spec's words (§4.2 / C5), as a per-match partial function: a match is
emitted exactly when it is a Go-module package, its fix state is exactly
"fixed" with at least one candidate version, the first candidate is
non-empty, and the normalized first candidate passes validity checking; the
severity defaults to "Unknown" when metadata is absent. -/
def fixableUpdateSpec (pathOK : List Char → Bool)
    (pathMajorOK : List Char → List Char → Bool) (m : VulnMatch) :
    Option PackageUpdate :=
  if m.Package.PkgType = goModulePkg ∧ m.Vulnerability.Fix.State = fixStateFixed
      ∧ m.Vulnerability.Fix.Versions ≠ [] ∧ m.Vulnerability.Fix.Versions.headD [] ≠ []
      ∧ isValidGoVersion pathOK pathMajorOK m.Package.Name
          (normalizeVersion m.Package.Version (m.Vulnerability.Fix.Versions.headD []))
        = true then
    some ⟨m.Package.Name, m.Package.Version,
      normalizeVersion m.Package.Version (m.Vulnerability.Fix.Versions.headD []),
      m.Vulnerability.ID,
      match m.Vulnerability.Metadata with
      | none => "Unknown".toList
      | some md => md.Severity⟩
  else none

/-- Number of distinct names in a list (first occurrences counted once). -/
def distinctCount : List (List Char) → Nat
  | [] => 0
  | n :: rest => if memName rest n then distinctCount rest else distinctCount rest + 1

/-- The spec-side `packagesUpdated` (§4.4 / C6): the number of distinct
package names having at least one successful result. -/
def packagesUpdatedSpec (results : List UpdateResult) : Nat :=
  distinctCount ((results.filter (fun r => r.Success)).map (fun r => r.Update.Name))

/-- The spec-side `packagesFailed` (§4.4 / C6): the number of distinct
package names having at least one failed result and no successful result. -/
def packagesFailedSpec (results : List UpdateResult) : Nat :=
  distinctCount
    (((results.filter (fun r => !r.Success)).map (fun r => r.Update.Name)).filter
      (fun n =>
        !memName ((results.filter (fun r => r.Success)).map (fun r => r.Update.Name)) n))

/-! ### Helper lemmas -/

theorem compareIntSV_self (x : List Char) : compareIntSV x x = 0 := by
  simp [compareIntSV]

theorem comparePrereleaseSV_self (x : List Char) : comparePrereleaseSV x x = 0 := by
  simp [comparePrereleaseSV]

theorem svCompare_self (v : List Char) : svCompare v v = 0 := by
  unfold svCompare
  cases svparse v with
  | none => rfl
  | some p => simp [compareIntSV_self, comparePrereleaseSV_self]

theorem goStrLt_irrefl (l : List Char) : goStrLt l l = false := by
  induction l with
  | nil => rfl
  | cons a t ih => simp [goStrLt, ih]

theorem shouldSkipUpdate_refl (v : List Char) : shouldSkipUpdate v v = true := by
  unfold shouldSkipUpdate
  split
  · simp [svCompare_self]
  · simp [goStrLt_irrefl]

theorem isValidGoVersion_eq (po : List Char → Bool) (pmo : List Char → List Char → Bool)
    (n v : List Char) : isValidGoVersion po pmo n v = svIsValid v := by
  unfold isValidGoVersion moduleCheck
  cases h : svIsValid v <;> cases po n <;> simp [h]

/-! ### C3: normalizeVersion -/

/-- C3 fails as stated: `"v1.2.3+1.2.3"` is a valid semantic version that
decomposes as the prefix `"v1.2.3+"` followed by its canonical
major.minor.patch core `"1.2.3"`, yet `normalizeVersion` rebuilds the
suggested version `"9.9.9"` with the prefix `"v"` taken from the FIRST
occurrence of the core (position 1), not with `"v1.2.3+"`. -/
theorem normalizeVersion_first_occurrence_counterexample :
    svIsValid "v1.2.3+1.2.3".toList = true
    ∧ canonicalCore "v1.2.3+1.2.3".toList = "1.2.3".toList
    ∧ "v1.2.3+1.2.3".toList = "v1.2.3+".toList ++ canonicalCore "v1.2.3+1.2.3".toList
    ∧ normalizeVersion "v1.2.3+1.2.3".toList "9.9.9".toList = "v9.9.9".toList
    ∧ "v9.9.9".toList ≠ "v1.2.3+".toList ++ "9.9.9".toList := by
  refine ⟨by decide, by decide, by decide, by decide, by decide⟩

/-- C3 (amended): for an invalid-semver current version `normalizeVersion`
returns the suggested version unchanged; for a valid current version whose
canonical core does not occur in it, likewise; and when the current version
decomposes as P followed by the canonical core AND that final position is
the FIRST occurrence of the core, the result is P ++ X for every X.  (The
first-occurrence proviso is forced by the counterexample above.) -/
theorem normalizeVersion_spec (cv X P : List Char) :
    (svIsValid cv = false → normalizeVersion cv X = X)
    ∧ (svIsValid cv = true → goIndex cv (canonicalCore cv) = none →
        normalizeVersion cv X = X)
    ∧ (svIsValid cv = true → cv = P ++ canonicalCore cv →
        goIndex cv (canonicalCore cv) = some P.length →
        normalizeVersion cv X = P ++ X) := by
  refine ⟨fun h => ?_, fun h hidx => ?_, fun h hdec hidx => ?_⟩
  · simp [normalizeVersion, h]
  · simp [normalizeVersion, h, hidx]
  · simp only [normalizeVersion, h, Bool.not_true, Bool.false_eq_true, if_false, hidx]
    have : cv.take P.length = P := by
      rw [hdec]
      exact List.take_left ..
    rw [this]

/-- Witness for C3: at the concrete input `currentVersion = "v1.2.3"`,
prefix `"v"`, suggestion `"2.0.0"`, the amended statement yields
`"v2.0.0"`. -/
theorem normalizeVersion_spec_witness :
    normalizeVersion "v1.2.3".toList "2.0.0".toList = "v".toList ++ "2.0.0".toList :=
  (normalizeVersion_spec "v1.2.3".toList "2.0.0".toList "v".toList).2.2
    (by decide) (by decide) (by decide)

/-! ### C4: the two-tier comparison of shouldSkipUpdate -/

/-- C4: the skip decision is two-tier: when both strings are valid semver it
follows `semver.Compare` (so `v1.2.0` sorts below `v1.10.0` and is not
skipped); when either is invalid it is Go's byte-wise string comparison
`applied >= target`.  The pseudo-version pairs differing only in their
fixed-width timestamp order by the larger timestamp, both when they are
valid semver (the `v`-prefixed forms, decided by semver prerelease
comparison) and when they are not (the unprefixed forms, decided
lexically). -/
theorem shouldSkipUpdate_two_tier (a b : List Char) :
    (svIsValid a = true → svIsValid b = true →
      shouldSkipUpdate a b = decide (0 ≤ svCompare a b))
    ∧ (¬(svIsValid a = true ∧ svIsValid b = true) →
      shouldSkipUpdate a b = !goStrLt a b)
    ∧ svCompare "v1.2.0".toList "v1.10.0".toList = -1
    ∧ shouldSkipUpdate "v1.2.0".toList "v1.10.0".toList = false
    ∧ shouldSkipUpdate "v1.10.0".toList "v1.2.0".toList = true
    ∧ svCompare "v0.0.0-20250827065555-abcdef123456".toList
        "v0.0.0-20250224180022-abcdef123456".toList = 1
    ∧ shouldSkipUpdate "v0.0.0-20250827065555-abcdef123456".toList
        "v0.0.0-20250224180022-abcdef123456".toList = true
    ∧ shouldSkipUpdate "v0.0.0-20250224180022-abcdef123456".toList
        "v0.0.0-20250827065555-abcdef123456".toList = false
    ∧ svIsValid "0.0.0-20250827065555-abc".toList = false
    ∧ shouldSkipUpdate "0.0.0-20250827065555-abc".toList
        "0.0.0-20250224180022-abc".toList = true
    ∧ shouldSkipUpdate "0.0.0-20250224180022-abc".toList
        "0.0.0-20250827065555-abc".toList = false := by
  refine ⟨fun ha hb => ?_, fun hnab => ?_, by decide, by decide, by decide, by decide,
    by decide, by decide, by decide, by decide, by decide⟩
  · simp [shouldSkipUpdate, ha, hb]
  · have : (svIsValid a && svIsValid b) = false := by
      cases ha : svIsValid a <;> cases hb : svIsValid b <;> simp_all
    simp [shouldSkipUpdate, this]

/-- Witness for C4 at concrete inputs: both tiers exercised, applying the
theorem at `a = "v1.0.0"`, `b = "v1.0.1"` (both valid) and at `a = "x"`,
`b = "y"` (invalid). -/
theorem shouldSkipUpdate_two_tier_witness :
    shouldSkipUpdate "v1.0.0".toList "v1.0.1".toList
        = decide (0 ≤ svCompare "v1.0.0".toList "v1.0.1".toList)
    ∧ shouldSkipUpdate "x".toList "y".toList = !goStrLt "x".toList "y".toList :=
  ⟨(shouldSkipUpdate_two_tier "v1.0.0".toList "v1.0.1".toList).1 (by decide) (by decide),
    (shouldSkipUpdate_two_tier "x".toList "y".toList).2.1 (by decide)⟩

/-! ### C8: isValidGoVersion -/

/-- C8 fails as stated: the pseudo-version
`v0.0.0-20240101120000-abcdef123456` is NOT accepted "via the module-version
fallback check" — it is itself a valid semantic version (a `v0.0.0`
prerelease), it is its own canonical semver form, and it is accepted even
when the module-path checks of the fallback are forced to reject
everything. -/
theorem isValidGoVersion_fallback_counterexample :
    svIsValid "v0.0.0-20240101120000-abcdef123456".toList = true
    ∧ svCanonical "v0.0.0-20240101120000-abcdef123456".toList
        = "v0.0.0-20240101120000-abcdef123456".toList
    ∧ isValidGoVersion (fun _ => false) (fun _ _ => false) "example.com/m".toList
        "v0.0.0-20240101120000-abcdef123456".toList = true := by
  refine ⟨by decide, by decide, by decide⟩

/-- C8 (amended): every semver-valid string is accepted; the pseudo-version
`v0.0.0-<14-digit-timestamp>-<commit-hash>` is accepted — by the
semantic-version check itself, pseudo-versions being valid semver
prereleases, not via the fallback; a string with a space is rejected; the
code tries semver validity first with `module.Check` as fallback, but since
`module.Check` itself requires semver validity, overall acceptance coincides
with semver validity for every behaviour of the module-path checks. -/
theorem isValidGoVersion_spec (po : List Char → Bool)
    (pmo : List Char → List Char → Bool) (n v : List Char) :
    (svIsValid v = true → isValidGoVersion po pmo n v = true)
    ∧ isValidGoVersion po pmo n v = (svIsValid v || moduleCheck po pmo n v)
    ∧ isValidGoVersion po pmo n v = svIsValid v
    ∧ isValidGoVersion po pmo n "v0.0.0-20240101120000-abcdef123456".toList = true
    ∧ isValidGoVersion po pmo n "v1.0.0 beta".toList = false := by
  refine ⟨fun h => ?_, ?_, isValidGoVersion_eq po pmo n v, ?_, ?_⟩
  · simp [isValidGoVersion, h]
  · cases h : svIsValid v <;> simp [isValidGoVersion, h]
  · rw [isValidGoVersion_eq]
    decide
  · rw [isValidGoVersion_eq]
    decide

/-- Witness for C8 at a concrete semver-valid input. -/
theorem isValidGoVersion_spec_witness :
    isValidGoVersion (fun _ => true) (fun _ _ => true) "example.com/m".toList
      "v2.3.4".toList = true :=
  (isValidGoVersion_spec (fun _ => true) (fun _ _ => true) "example.com/m".toList
    "v2.3.4".toList).1 (by decide)

/-! ### Patcher helper lemmas -/

theorem lookupApplied_set_self (m : List (List Char × List Char)) (n ver : List Char) :
    lookupApplied (setApplied m n ver) n = some ver := by
  induction m with
  | nil => simp [setApplied, lookupApplied]
  | cons kv rest ih =>
    obtain ⟨k, v⟩ := kv
    by_cases h : k = n
    · simp [setApplied, lookupApplied, h]
    · simp [setApplied, lookupApplied, h, ih]

theorem lookupApplied_set_ne (m : List (List Char × List Char)) (n ver p : List Char)
    (hne : p ≠ n) : lookupApplied (setApplied m n ver) p = lookupApplied m p := by
  induction m with
  | nil => simp [setApplied, lookupApplied, Ne.symm hne]
  | cons kv rest ih =>
    obtain ⟨k, v⟩ := kv
    by_cases h : k = n
    · subst h
      simp [setApplied, lookupApplied, Ne.symm hne]
    · by_cases h2 : k = p
      · subst h2
        simp [setApplied, lookupApplied, h]
      · simp [setApplied, lookupApplied, h, h2, ih]

theorem lastSuccess_append (n : List Char) (cs : List EngineCall) (c : EngineCall) :
    lastSuccess n (cs ++ [c]) =
      if c.name = n ∧ c.success = true then some c.target else lastSuccess n cs := by
  induction cs with
  | nil =>
    by_cases hP : c.name = n ∧ c.success = true <;> simp [lastSuccess, hP]
  | cons d rest ih =>
    by_cases hP : c.name = n ∧ c.success = true
    · simp only [List.cons_append, lastSuccess, List.append_eq, ih, if_pos hP]
    · simp only [List.cons_append, lastSuccess, List.append_eq, ih, if_neg hP]

theorem callsInv_applyOne (e : Nat → Option (List Char)) (s : ApplyState)
    (u : PackageUpdate) (hinv : CallsInv s)
    (hprior : lookupApplied s.applied u.Name = none ∨
      ∃ av, lookupApplied s.applied u.Name = some av ∧
        shouldSkipUpdate av u.TargetVersion = false) :
    CallsInv (applyOne e s u (lookupApplied s.applied u.Name)) := by
  obtain ⟨h1, h2, h3⟩ := hinv
  refine ⟨?_, ?_, ?_⟩
  · intro c hc av hav
    rcases List.mem_append.1 hc with hold | hnew
    · exact h1 c hold av hav
    · have hc' : c = ⟨u.Name, u.TargetVersion, lookupApplied s.applied u.Name,
          (e s.calls.length).isNone⟩ := by simpa using hnew
      subst hc'
      rcases hprior with hnone | ⟨av', hav', hskip⟩
      · simp only [hnone] at hav
        exact absurd hav (by simp)
      · have : av' = av := by
          rw [hav'] at hav
          exact Option.some.inj hav
        subst this
        exact hskip
  · intro n
    show lookupApplied (if (e s.calls.length).isNone then
        setApplied s.applied u.Name u.TargetVersion else s.applied) n
      = lastSuccess n (s.calls ++ [⟨u.Name, u.TargetVersion,
          lookupApplied s.applied u.Name, (e s.calls.length).isNone⟩])
    rw [lastSuccess_append]
    cases hsucc : (e s.calls.length).isNone with
    | true =>
      by_cases hn : u.Name = n
      · subst hn
        simp [lookupApplied_set_self]
      · simp only [if_true]
        rw [lookupApplied_set_ne _ _ _ _ (Ne.symm hn)]
        simp [hn, h2 n]
    | false =>
      simp [h2 n]
  · intro i h
    have hlen : (applyOne e s u (lookupApplied s.applied u.Name)).calls
        = s.calls ++ [⟨u.Name, u.TargetVersion, lookupApplied s.applied u.Name,
            (e s.calls.length).isNone⟩] := rfl
    by_cases hi : i < s.calls.length
    · have hget : (applyOne e s u (lookupApplied s.applied u.Name)).calls.get ⟨i, h⟩
          = s.calls.get ⟨i, hi⟩ := by
        simp only [List.get_eq_getElem, hlen]
        exact List.getElem_append_left hi
      have htake : (applyOne e s u (lookupApplied s.applied u.Name)).calls.take i
          = s.calls.take i := by
        rw [hlen]
        exact List.take_append_of_le_length (Nat.le_of_lt hi)
      rw [hget, htake]
      exact h3 i hi
    · have hieq : i = s.calls.length := by
        have : i < s.calls.length + 1 := by
          simpa [hlen] using h
        omega
      subst hieq
      have hget : (applyOne e s u (lookupApplied s.applied u.Name)).calls.get ⟨s.calls.length, h⟩
          = ⟨u.Name, u.TargetVersion, lookupApplied s.applied u.Name,
              (e s.calls.length).isNone⟩ := by
        simp [List.get_eq_getElem, hlen]
      have htake : (applyOne e s u (lookupApplied s.applied u.Name)).calls.take s.calls.length
          = s.calls := by
        rw [hlen]
        exact List.take_left ..
      rw [hget, htake]
      show lookupApplied s.applied u.Name = lastSuccess u.Name s.calls
      exact h2 u.Name

theorem updateAllStep_eq_of_lookup_none (e : Nat → Option (List Char)) (s : ApplyState)
    (u : PackageUpdate) (hl : lookupApplied s.applied u.Name = none) :
    updateAllStep e s u = applyOne e s u none := by
  unfold updateAllStep
  rw [hl]

theorem updateAllStep_eq_of_skip (e : Nat → Option (List Char)) (s : ApplyState)
    (u : PackageUpdate) (av : List Char)
    (hl : lookupApplied s.applied u.Name = some av)
    (hs : shouldSkipUpdate av u.TargetVersion = true) :
    updateAllStep e s u = s := by
  unfold updateAllStep
  rw [hl]
  simp [hs]

theorem updateAllStep_eq_of_noskip (e : Nat → Option (List Char)) (s : ApplyState)
    (u : PackageUpdate) (av : List Char)
    (hl : lookupApplied s.applied u.Name = some av)
    (hs : shouldSkipUpdate av u.TargetVersion = false) :
    updateAllStep e s u = applyOne e s u (some av) := by
  unfold updateAllStep
  rw [hl]
  simp [hs]

theorem callsInv_step (e : Nat → Option (List Char)) (s : ApplyState)
    (u : PackageUpdate) (hinv : CallsInv s) : CallsInv (updateAllStep e s u) := by
  cases hl : lookupApplied s.applied u.Name with
  | none =>
    rw [updateAllStep_eq_of_lookup_none e s u hl]
    have := callsInv_applyOne e s u hinv (Or.inl hl)
    rwa [hl] at this
  | some av =>
    cases hs : shouldSkipUpdate av u.TargetVersion with
    | true =>
      rw [updateAllStep_eq_of_skip e s u av hl hs]
      exact hinv
    | false =>
      rw [updateAllStep_eq_of_noskip e s u av hl hs]
      have := callsInv_applyOne e s u hinv (Or.inr ⟨av, hl, hs⟩)
      rwa [hl] at this

theorem callsInv_foldl (e : Nat → Option (List Char)) (us : List PackageUpdate)
    (s : ApplyState) (hinv : CallsInv s) :
    CallsInv (us.foldl (updateAllStep e) s) := by
  induction us generalizing s with
  | nil => exact hinv
  | cons u rest ih => exact ih _ (callsInv_step e s u hinv)

theorem callsInv_updateAllState (e : Nat → Option (List Char))
    (us : List PackageUpdate) : CallsInv (updateAllState e us) := by
  refine callsInv_foldl e us _ ⟨?_, ?_, ?_⟩
  · intro c hc
    simp at hc
  · intro n
    rfl
  · intro i h
    simp at h

theorem updateAllStep_cases (e : Nat → Option (List Char)) (s : ApplyState)
    (u : PackageUpdate) :
    updateAllStep e s u = s ∨ ∃ pv, updateAllStep e s u = applyOne e s u pv := by
  cases hl : lookupApplied s.applied u.Name with
  | none => exact Or.inr ⟨none, updateAllStep_eq_of_lookup_none e s u hl⟩
  | some av =>
    cases hs : shouldSkipUpdate av u.TargetVersion with
    | true => exact Or.inl (updateAllStep_eq_of_skip e s u av hl hs)
    | false => exact Or.inr ⟨some av, updateAllStep_eq_of_noskip e s u av hl hs⟩

theorem results_decompose (e : Nat → Option (List Char)) (us : List PackageUpdate)
    (s : ApplyState) :
    ∃ tail : List UpdateResult,
      (us.foldl (updateAllStep e) s).results = s.results ++ tail
      ∧ List.Sublist (tail.map (fun r => r.Update)) us
      ∧ (∀ r ∈ tail, r.Success = r.Error.isNone)
      ∧ (us.foldl (updateAllStep e) s).calls.map (fun c => (c.name, c.target))
          = s.calls.map (fun c => (c.name, c.target))
            ++ tail.map (fun r => (r.Update.Name, r.Update.TargetVersion)) := by
  induction us generalizing s with
  | nil => exact ⟨[], by simp, List.Sublist.refl _, by simp, by simp⟩
  | cons u rest ih =>
    rcases updateAllStep_cases e s u with hstep | ⟨pv, hstep⟩
    · obtain ⟨tail, ht, hsub, herr, hcalls⟩ := ih (updateAllStep e s u)
      refine ⟨tail, ?_, hsub.cons u, herr, ?_⟩
      · rw [List.foldl_cons, ht, hstep]
      · rw [List.foldl_cons, hcalls, hstep]
    · obtain ⟨tail, ht, hsub, herr, hcalls⟩ := ih (updateAllStep e s u)
      refine ⟨⟨u, (e s.calls.length).isNone, e s.calls.length⟩ :: tail, ?_, ?_, ?_, ?_⟩
      · rw [List.foldl_cons, ht, hstep]
        simp [applyOne]
      · simpa using hsub.cons₂ u
      · intro r hr
        rcases List.mem_cons.1 hr with hr0 | hrtail
        · subst hr0
          rfl
        · exact herr r hrtail
      · rw [List.foldl_cons, hcalls, hstep]
        simp [applyOne]

/-! ### C1: the skip policy of UpdateAll -/

/-- C1 fails as stated in its idempotence part: when the mutation engine
fails the first attempt, nothing is recorded in `appliedVersions`
(patcher.go:102-104), so the identical duplicate update is attempted again —
two engine invocations, not one. -/
theorem updateAll_duplicate_retry_counterexample :
    (updateAllState (fun _ => some ['e', 'r', 'r'])
      [⟨"p".toList, "v1.0.0".toList, "v1.0.1".toList, "CVE-1".toList, "High".toList⟩,
        ⟨"p".toList, "v1.0.0".toList, "v1.0.1".toList, "CVE-1".toList, "High".toList⟩]
      ).calls.length = 2 := by decide

/-- C1 (amended): when an update's package has a recorded applied version
that compares greater or equal to the target (per `shouldSkipUpdate`), the
update is skipped — the state is unchanged, so the mutation engine is not
invoked and no `UpdateResult` is emitted; when the recorded version compares
strictly below the target, the update is attempted (an engine call for
exactly this name and target is appended); and two updates for the same
package with identical target versions cause exactly one engine invocation
PROVIDED the first attempt succeeds (a failed attempt records nothing and
the duplicate is retried, per the counterexample). -/
theorem updateAll_skip_policy (e : Nat → Option (List Char)) (s : ApplyState)
    (u : PackageUpdate) (av : List Char) :
    (lookupApplied s.applied u.Name = some av →
      shouldSkipUpdate av u.TargetVersion = true → updateAllStep e s u = s)
    ∧ (lookupApplied s.applied u.Name = some av →
      shouldSkipUpdate av u.TargetVersion = false →
      (updateAllStep e s u).calls = s.calls
        ++ [⟨u.Name, u.TargetVersion, some av, (e s.calls.length).isNone⟩]
      ∧ (updateAllStep e s u).results = s.results
        ++ [⟨u, (e s.calls.length).isNone, e s.calls.length⟩])
    ∧ ((e 0).isNone = true → (updateAllState e [u, u]).calls.length = 1) := by
  refine ⟨fun hl hs => updateAllStep_eq_of_skip e s u av hl hs,
    fun hl hs => ?_, fun he => ?_⟩
  · rw [updateAllStep_eq_of_noskip e s u av hl hs]
    exact ⟨rfl, rfl⟩
  · have h1 : updateAllState e [u, u]
        = updateAllStep e (applyOne e ⟨[], [], []⟩ u none) u := rfl
    have hl : lookupApplied (applyOne e ⟨[], [], []⟩ u none).applied u.Name
        = some u.TargetVersion := by
      show lookupApplied (if (e 0).isNone then
          setApplied [] u.Name u.TargetVersion else []) u.Name = some u.TargetVersion
      rw [he]
      simp [setApplied, lookupApplied]
    rw [h1, updateAllStep_eq_of_skip e _ u u.TargetVersion hl (shouldSkipUpdate_refl _)]
    rfl

/-- Witness for C1: a concrete state that already applied `v1.2.0` for `p`
skips the older target `v1.0.0` and attempts the newer target `v1.3.0`, and
a duplicate pair under an always-succeeding engine yields one call. -/
theorem updateAll_skip_policy_witness :
    updateAllStep (fun _ => none)
        ⟨[], [("p".toList, "v1.2.0".toList)], []⟩
        ⟨"p".toList, "v1.0.0".toList, "v1.0.0".toList, "CVE-2".toList, "Low".toList⟩
      = ⟨[], [("p".toList, "v1.2.0".toList)], []⟩
    ∧ (updateAllStep (fun _ => none)
        ⟨[], [("p".toList, "v1.2.0".toList)], []⟩
        ⟨"p".toList, "v1.0.0".toList, "v1.3.0".toList, "CVE-3".toList, "Low".toList⟩).calls
      = [⟨"p".toList, "v1.3.0".toList, some "v1.2.0".toList, true⟩]
    ∧ (updateAllState (fun _ => none)
        [⟨"q".toList, "v1.0.0".toList, "v1.0.1".toList, "CVE-4".toList, "Low".toList⟩,
          ⟨"q".toList, "v1.0.0".toList, "v1.0.1".toList, "CVE-4".toList, "Low".toList⟩]
      ).calls.length = 1 :=
  ⟨(updateAll_skip_policy (fun _ => none) ⟨[], [("p".toList, "v1.2.0".toList)], []⟩
      ⟨"p".toList, "v1.0.0".toList, "v1.0.0".toList, "CVE-2".toList, "Low".toList⟩
      "v1.2.0".toList).1 (by decide) (by decide),
    ((updateAll_skip_policy (fun _ => none) ⟨[], [("p".toList, "v1.2.0".toList)], []⟩
      ⟨"p".toList, "v1.0.0".toList, "v1.3.0".toList, "CVE-3".toList, "Low".toList⟩
      "v1.2.0".toList).2.1 (by decide) (by decide)).1,
    (updateAll_skip_policy (fun _ => none) ⟨[], [], []⟩
      ⟨"q".toList, "v1.0.0".toList, "v1.0.1".toList, "CVE-4".toList, "Low".toList⟩
      []).2.2 (by decide)⟩

/-! ### C2: the Applier never moves a package backward -/

/-- C2 fails as stated: with targets `v1.2.0`, `v1.10.0`, `v1.15beta` for
one package (all succeeding), the third call IS made — `v1.15beta` is
invalid semver, so it is compared lexically against the recorded `v1.10.0`
(and wins), yet it compares strictly below the earlier successfully applied
`v1.2.0` per the very same `shouldSkipUpdate` ordering.  The two-tier
comparison is not transitive across valid/invalid strings, so the engine can
be invoked with a target below an earlier (non-latest) applied version. -/
theorem updateAll_backward_counterexample :
    ((updateAllState (fun _ => none)
      [⟨"p".toList, "v1.0.0".toList, "v1.2.0".toList, "A".toList, "High".toList⟩,
        ⟨"p".toList, "v1.0.0".toList, "v1.10.0".toList, "B".toList, "High".toList⟩,
        ⟨"p".toList, "v1.0.0".toList, "v1.15beta".toList, "C".toList, "High".toList⟩]
      ).calls.map (fun c => (c.target, c.success)))
      = [("v1.2.0".toList, true), ("v1.10.0".toList, true), ("v1.15beta".toList, true)]
    ∧ shouldSkipUpdate "v1.2.0".toList "v1.15beta".toList = true
    ∧ shouldSkipUpdate "v1.15beta".toList "v1.2.0".toList = false := by
  refine ⟨by decide, by decide, by decide⟩

/-- C2 (amended): the mutation engine is never invoked with a target the
MOST RECENTLY recorded successfully applied version of its package would
have skipped: every engine call whose package had a recorded applied version
`av` at call time has `shouldSkipUpdate av target = false`; the
`appliedVersions` map always holds exactly the most recent successful call's
target for each package; and each call's recorded prior version is the most
recent successful call for its package among the strictly earlier calls.
(The original "any earlier applied version" form fails, per the
counterexample, because the two-tier ordering is not transitive.) -/
theorem updateAll_never_backward (e : Nat → Option (List Char))
    (us : List PackageUpdate) :
    (∀ c ∈ (updateAllState e us).calls, ∀ av, c.prior = some av →
        shouldSkipUpdate av c.target = false)
    ∧ (∀ n, lookupApplied (updateAllState e us).applied n
        = lastSuccess n (updateAllState e us).calls)
    ∧ (∀ i, ∀ h : i < (updateAllState e us).calls.length,
        ((updateAllState e us).calls.get ⟨i, h⟩).prior =
          lastSuccess ((updateAllState e us).calls.get ⟨i, h⟩).name
            ((updateAllState e us).calls.take i)) :=
  callsInv_updateAllState e us

/-- Witness for C2: in the concrete two-update run for package `p` with
targets `v1.0.1` then `v1.0.2`, the second engine call carries the recorded
prior version `v1.0.1`, and the theorem yields that the call's target was
not one the recorded version would have skipped. -/
theorem updateAll_never_backward_witness :
    shouldSkipUpdate "v1.0.1".toList "v1.0.2".toList = false :=
  (updateAll_never_backward (fun _ => none)
    [⟨"p".toList, "v1.0.0".toList, "v1.0.1".toList, "A".toList, "Low".toList⟩,
      ⟨"p".toList, "v1.0.0".toList, "v1.0.2".toList, "B".toList, "Low".toList⟩]).1
    ⟨"p".toList, "v1.0.2".toList, some "v1.0.1".toList, true⟩ (by decide)
    "v1.0.1".toList rfl

/-! ### C10: invariants of the returned UpdateResults -/

/-- C10: every `UpdateResult` returned by `UpdateAll` has `Success` true
exactly when `Error` is nil; the sequence of `Update` fields is an in-order
subsequence of the input updates; and the results correspond one-to-one, in
order, to the mutation-engine invocations (the attempted, non-skipped
updates), matching them on package name and target version. -/
theorem updateAll_result_invariants (e : Nat → Option (List Char))
    (t : Option (List Char)) (us : List PackageUpdate) :
    (∀ r ∈ UpdateAll e t us, (r.Success = true ↔ r.Error = none))
    ∧ List.Sublist ((UpdateAll e t us).map (fun r => r.Update)) us
    ∧ (updateAllState e us).calls.map (fun c => (c.name, c.target))
        = (UpdateAll e t us).map (fun r => (r.Update.Name, r.Update.TargetVersion)) := by
  obtain ⟨tail, ht, hsub, herr, hcalls⟩ := results_decompose e us ⟨[], [], []⟩
  have hres : UpdateAll e t us = tail := by
    show (updateAllState e us).results = tail
    show (us.foldl (updateAllStep e) ⟨[], [], []⟩).results = tail
    rw [ht]
    simp
  refine ⟨?_, ?_, ?_⟩
  · intro r hr
    rw [hres] at hr
    have hSE := herr r hr
    constructor
    · intro hS
      rw [hS] at hSE
      exact Option.isNone_iff_eq_none.1 hSE.symm
    · intro hE
      rw [hSE, hE]
      rfl
  · rw [hres]
    exact hsub
  · have hcm : (updateAllState e us).calls.map (fun c => (c.name, c.target))
        = tail.map (fun r => (r.Update.Name, r.Update.TargetVersion)) := by
      show (us.foldl (updateAllStep e) ⟨[], [], []⟩).calls.map (fun c => (c.name, c.target))
        = tail.map (fun r => (r.Update.Name, r.Update.TargetVersion))
      rw [hcalls]
      simp
    rw [hcm, hres]

/-- Witness for C10: in a concrete one-update run with a succeeding engine,
the single result has `Success` true iff its `Error` is nil. -/
theorem updateAll_result_invariants_witness :
    ((⟨⟨"p".toList, "v1.0.0".toList, "v1.0.1".toList, "A".toList, "Low".toList⟩,
        true, none⟩ : UpdateResult).Success = true
      ↔ (⟨⟨"p".toList, "v1.0.0".toList, "v1.0.1".toList, "A".toList, "Low".toList⟩,
        true, none⟩ : UpdateResult).Error = none) :=
  (updateAll_result_invariants (fun _ => none) none
    [⟨"p".toList, "v1.0.0".toList, "v1.0.1".toList, "A".toList, "Low".toList⟩]).1
    ⟨⟨"p".toList, "v1.0.0".toList, "v1.0.1".toList, "A".toList, "Low".toList⟩, true, none⟩
    (by decide)

/-! ### C5 and C9: the extractor -/

theorem getFixableUpdates_cons (po : List Char → Bool) (pmo : List Char → List Char → Bool)
    (m : VulnMatch) (ms : List VulnMatch) :
    GetFixableUpdates po pmo (m :: ms)
      = match fixableUpdateSpec po pmo m with
        | none => GetFixableUpdates po pmo ms
        | some u => u :: GetFixableUpdates po pmo ms := by
  by_cases h1 : m.Package.PkgType = goModulePkg
  · by_cases h2 : m.Vulnerability.Fix.Versions.length = 0
        ∨ m.Vulnerability.Fix.State ≠ fixStateFixed
    · rcases h2 with hlen | hstate
      · have hnil : m.Vulnerability.Fix.Versions = [] := List.length_eq_zero.1 hlen
        simp [GetFixableUpdates, fixableUpdateSpec, h1, hnil]
      · simp [GetFixableUpdates, fixableUpdateSpec, h1, hstate]
    · push_neg at h2
      obtain ⟨hlen0, hstate⟩ := h2
      have hpos : 0 < m.Vulnerability.Fix.Versions.length := Nat.pos_of_ne_zero hlen0
      have hne : m.Vulnerability.Fix.Versions ≠ [] := by
        intro hcon
        rw [hcon] at hlen0
        exact hlen0 rfl
      by_cases h3 : m.Vulnerability.Fix.Versions.head?.getD ([] : List Char) = []
      · simp [GetFixableUpdates, fixableUpdateSpec, h1, hlen0, hstate, hpos, hne, h3]
      · cases h4 : isValidGoVersion po pmo m.Package.Name
            (normalizeVersion m.Package.Version
              (m.Vulnerability.Fix.Versions.head?.getD ([] : List Char)))
        · simp [GetFixableUpdates, fixableUpdateSpec, h1, hlen0, hstate, hpos, hne, h3, h4]
        · simp [GetFixableUpdates, fixableUpdateSpec, h1, hlen0, hstate, hpos, hne, h3, h4]
  · simp [GetFixableUpdates, fixableUpdateSpec, h1]

theorem getFixableUpdates_eq_filterMap (po : List Char → Bool)
    (pmo : List Char → List Char → Bool) (ms : List VulnMatch) :
    GetFixableUpdates po pmo ms = ms.filterMap (fixableUpdateSpec po pmo) := by
  induction ms with
  | nil => rfl
  | cons m ms ih =>
    rw [getFixableUpdates_cons, List.filterMap_cons]
    cases h : fixableUpdateSpec po pmo m <;> simp [h, ih]

theorem getFixableUpdates_replicate (po : List Char → Bool)
    (pmo : List Char → List Char → Bool) (m : VulnMatch) (k : Nat) :
    (GetFixableUpdates po pmo (List.replicate k m)).length
      = if (fixableUpdateSpec po pmo m).isSome then k else 0 := by
  induction k with
  | zero => simp [GetFixableUpdates]
  | succ k ih =>
    rw [List.replicate_succ, getFixableUpdates_cons]
    cases h : fixableUpdateSpec po pmo m <;> simp [h, ih]

/-- C5: `GetFixableUpdates` emits, in enumeration order and without
deduplication, exactly one `PackageUpdate` per match satisfying the
extraction condition of `fixableUpdateSpec` (Go-module package, fix state
exactly "fixed" with at least one candidate, non-empty first candidate,
normalized first candidate passing validity; severity from metadata,
defaulting to "Unknown" when metadata is absent) — it equals `filterMap` of
that per-match function, so k copies of one fixable match yield k updates. -/
theorem getFixableUpdates_spec (po : List Char → Bool)
    (pmo : List Char → List Char → Bool) :
    (∀ ms : List VulnMatch, GetFixableUpdates po pmo ms
        = ms.filterMap (fixableUpdateSpec po pmo))
    ∧ (∀ (m : VulnMatch) (k : Nat),
        (GetFixableUpdates po pmo (List.replicate k m)).length
          = if (fixableUpdateSpec po pmo m).isSome then k else 0) :=
  ⟨getFixableUpdates_eq_filterMap po pmo, getFixableUpdates_replicate po pmo⟩

/-- C9: every `PackageUpdate` emitted by `GetFixableUpdates` has a target
version passing `isValidGoVersion` for its package name, and two matches for
the same package yield two updates sharing that package name. -/
theorem getFixableUpdates_invariant (po : List Char → Bool)
    (pmo : List Char → List Char → Bool) (ms : List VulnMatch) :
    (∀ u ∈ GetFixableUpdates po pmo ms,
      isValidGoVersion po pmo u.Name u.TargetVersion = true)
    ∧ (GetFixableUpdates po pmo
        [⟨⟨"m.example/a".toList, "v1.0.0".toList, "go-module".toList⟩,
          ⟨"CVE-9".toList, ⟨["1.0.1".toList], "fixed".toList⟩, none⟩⟩,
          ⟨⟨"m.example/a".toList, "v1.0.0".toList, "go-module".toList⟩,
            ⟨"CVE-10".toList, ⟨["1.0.2".toList], "fixed".toList⟩, none⟩⟩]).map
          (fun u => u.Name)
      = ["m.example/a".toList, "m.example/a".toList] := by
  constructor
  · intro u hu
    rw [getFixableUpdates_eq_filterMap] at hu
    obtain ⟨m, hm, hsome⟩ := List.mem_filterMap.1 hu
    unfold fixableUpdateSpec at hsome
    split at hsome
    case isTrue h =>
      cases hsome
      exact h.2.2.2.2
    case isFalse h => exact absurd hsome (by simp)
  · rw [getFixableUpdates_eq_filterMap]
    simp only [List.filterMap_cons, List.filterMap_nil]
    rw [show fixableUpdateSpec po pmo
        ⟨⟨"m.example/a".toList, "v1.0.0".toList, "go-module".toList⟩,
          ⟨"CVE-9".toList, ⟨["1.0.1".toList], "fixed".toList⟩, none⟩⟩
        = some ⟨"m.example/a".toList, "v1.0.0".toList, "v1.0.1".toList,
            "CVE-9".toList, "Unknown".toList⟩ from by
      unfold fixableUpdateSpec
      simp only [isValidGoVersion_eq]
      decide]
    rw [show fixableUpdateSpec po pmo
        ⟨⟨"m.example/a".toList, "v1.0.0".toList, "go-module".toList⟩,
          ⟨"CVE-10".toList, ⟨["1.0.2".toList], "fixed".toList⟩, none⟩⟩
        = some ⟨"m.example/a".toList, "v1.0.0".toList, "v1.0.2".toList,
            "CVE-10".toList, "Unknown".toList⟩ from by
      unfold fixableUpdateSpec
      simp only [isValidGoVersion_eq]
      decide]
    decide

/-- Witness for C9: a concrete emitted update's target version is accepted
by `isValidGoVersion`. -/
theorem getFixableUpdates_invariant_witness :
    isValidGoVersion (fun _ => true) (fun _ _ => true)
      "m.example/a".toList "v1.0.1".toList = true :=
  (getFixableUpdates_invariant (fun _ => true) (fun _ _ => true)
    [⟨⟨"m.example/a".toList, "v1.0.0".toList, "go-module".toList⟩,
      ⟨"CVE-9".toList, ⟨["1.0.1".toList], "fixed".toList⟩, none⟩⟩]).1
    ⟨"m.example/a".toList, "v1.0.0".toList, "v1.0.1".toList,
      "CVE-9".toList, "Unknown".toList⟩
    (by decide)

/-! ### C6: the package-level counts of AnalyzeResults -/

theorem analyzeStep1_counts (results : List UpdateResult)
    (acc : ResultStats × List (List Char)) :
    ((results.foldl analyzeStep1 acc).1.PackagesUpdated
        = acc.1.PackagesUpdated + (results.filter (fun r => r.Success)).length)
    ∧ ((results.foldl analyzeStep1 acc).1.PackagesFailed
        = acc.1.PackagesFailed + (results.filter (fun r => !r.Success)).length) := by
  induction results generalizing acc with
  | nil => simp
  | cons r rs ih =>
    obtain ⟨ih1, ih2⟩ := ih (analyzeStep1 acc r)
    cases hS : r.Success
    · constructor
      · rw [List.foldl_cons, ih1]
        simp [analyzeStep1, hS, List.filter_cons]
      · rw [List.foldl_cons, ih2]
        simp [analyzeStep1, hS, List.filter_cons]
        omega
    · constructor
      · rw [List.foldl_cons, ih1]
        simp [analyzeStep1, hS, List.filter_cons]
        omega
      · rw [List.foldl_cons, ih2]
        simp [analyzeStep1, hS, List.filter_cons]

theorem analyzeStep2_preserves (results : List UpdateResult)
    (succNames : List (List Char)) (us : List PackageUpdate) (st : ResultStats) :
    ((us.foldl (analyzeStep2 results succNames) st).PackagesUpdated = st.PackagesUpdated)
    ∧ ((us.foldl (analyzeStep2 results succNames) st).PackagesFailed = st.PackagesFailed) := by
  induction us generalizing st with
  | nil => exact ⟨rfl, rfl⟩
  | cons u us ih =>
    obtain ⟨ih1, ih2⟩ := ih (analyzeStep2 results succNames st u)
    have hstep : (analyzeStep2 results succNames st u).PackagesUpdated = st.PackagesUpdated
        ∧ (analyzeStep2 results succNames st u).PackagesFailed = st.PackagesFailed := by
      unfold analyzeStep2
      split_ifs <;> exact ⟨rfl, rfl⟩
    constructor
    · rw [List.foldl_cons, ih1, hstep.1]
    · rw [List.foldl_cons, ih2, hstep.2]

/-- C6 fails as stated: two successful results for the SAME package yield
`PackagesUpdated = 2` although only one distinct package has a successful
result, and a failed result for a package that also has a successful result
still counts into `PackagesFailed` — the code counts results, not distinct
package names (pkg/reporter/reporter.go:36-43). -/
theorem analyzeResults_distinct_counterexample :
    (AnalyzeResults []
      [⟨⟨"a".toList, "v1".toList, "v1.0.1".toList, "A".toList, "Low".toList⟩, true, none⟩,
        ⟨⟨"a".toList, "v1".toList, "v1.0.2".toList, "B".toList, "Low".toList⟩, true, none⟩]
      ).PackagesUpdated = 2
    ∧ packagesUpdatedSpec
      [⟨⟨"a".toList, "v1".toList, "v1.0.1".toList, "A".toList, "Low".toList⟩, true, none⟩,
        ⟨⟨"a".toList, "v1".toList, "v1.0.2".toList, "B".toList, "Low".toList⟩, true, none⟩]
      = 1
    ∧ (AnalyzeResults []
      [⟨⟨"a".toList, "v1".toList, "v1.0.1".toList, "A".toList, "Low".toList⟩, true, none⟩,
        ⟨⟨"a".toList, "v1".toList, "v1.0.2".toList, "B".toList, "Low".toList⟩, false,
          some "boom".toList⟩]
      ).PackagesFailed = 1
    ∧ packagesFailedSpec
      [⟨⟨"a".toList, "v1".toList, "v1.0.1".toList, "A".toList, "Low".toList⟩, true, none⟩,
        ⟨⟨"a".toList, "v1".toList, "v1.0.2".toList, "B".toList, "Low".toList⟩, false,
          some "boom".toList⟩]
      = 0 := by
  refine ⟨by decide, by decide, by decide, by decide⟩

/-- C6 (amended): for every updates list and results list,
`PackagesUpdated` equals the number of successful results and
`PackagesFailed` the number of failed results (result-level counts, not
distinct-package counts — the counterexample shows the two disagree when one
package has several results). -/
theorem analyzeResults_package_counts (updates : List PackageUpdate)
    (results : List UpdateResult) :
    (AnalyzeResults updates results).PackagesUpdated
        = (results.filter (fun r => r.Success)).length
    ∧ (AnalyzeResults updates results).PackagesFailed
        = (results.filter (fun r => !r.Success)).length := by
  obtain ⟨hp1, hp2⟩ := analyzeStep2_preserves results (analyzePass1 results).2 updates
    (analyzePass1 results).1
  obtain ⟨hc1, hc2⟩ := analyzeStep1_counts results (⟨0, 0, 0, 0⟩, [])
  constructor
  · show (updates.foldl (analyzeStep2 results (analyzePass1 results).2)
        (analyzePass1 results).1).PackagesUpdated = _
    rw [hp1]
    show (results.foldl analyzeStep1 (⟨0, 0, 0, 0⟩, [])).1.PackagesUpdated = _
    rw [hc1]
    simp
  · show (updates.foldl (analyzeStep2 results (analyzePass1 results).2)
        (analyzePass1 results).1).PackagesFailed = _
    rw [hp2]
    show (results.foldl analyzeStep1 (⟨0, 0, 0, 0⟩, [])).1.PackagesFailed = _
    rw [hc2]
    simp

/-! ### C7: exit codes of run -/

/-- C7: the exit code is 2 on a scanner-initialization error, a scan error,
a patcher-initialization error or a report error; 0 when no fixable updates
are found; 0 when every emitted result is successful; 1 when at least one
result failed; and the outcome of the final go-mod-tidy pass changes neither
the exit code nor any returned `UpdateResult`. -/
theorem run_exit_codes (po : List Char → Bool) (pmo : List Char → List Char → Bool)
    (se : Option (List Char)) (so : Except (List Char) (List VulnMatch))
    (pe : Option (List Char)) (e : Nat → Option (List Char))
    (t t2 re : Option (List Char)) :
    (se.isSome = true → run po pmo se so pe e t re = 2)
    ∧ (∀ msg, run po pmo none (.error msg) pe e t re = 2)
    ∧ (∀ ms, GetFixableUpdates po pmo ms = [] →
        run po pmo none (.ok ms) pe e t re = 0)
    ∧ (∀ ms, GetFixableUpdates po pmo ms ≠ [] → pe.isSome = true →
        run po pmo none (.ok ms) pe e t re = 2)
    ∧ (∀ ms, GetFixableUpdates po pmo ms ≠ [] → pe = none → re.isSome = true →
        run po pmo none (.ok ms) pe e t re = 2)
    ∧ (∀ ms, pe = none → re = none →
        (UpdateAll e t (GetFixableUpdates po pmo ms)).all (fun r => r.Success) = true →
        run po pmo none (.ok ms) pe e t re = 0)
    ∧ (∀ ms, pe = none → re = none →
        (UpdateAll e t (GetFixableUpdates po pmo ms)).any (fun r => !r.Success) = true →
        run po pmo none (.ok ms) pe e t re = 1)
    ∧ (run po pmo se so pe e t re = run po pmo se so pe e t2 re)
    ∧ (∀ us, UpdateAll e t us = UpdateAll e t2 us) := by
  refine ⟨fun hse => ?_, fun msg => ?_, fun ms hup => ?_, fun ms hup hpe => ?_,
    fun ms hup hpe hre => ?_, fun ms hpe hre hall => ?_, fun ms hpe hre hany => ?_,
    rfl, fun us => rfl⟩
  · unfold run
    rw [if_pos hse]
  · rfl
  · unfold run
    simp [hup]
  · unfold run
    have : (GetFixableUpdates po pmo ms).length ≠ 0 := by
      intro hcon
      exact hup (List.length_eq_zero.1 hcon)
    simp [this, hpe]
  · unfold run
    have : (GetFixableUpdates po pmo ms).length ≠ 0 := by
      intro hcon
      exact hup (List.length_eq_zero.1 hcon)
    simp [this, hpe, hre]
  · unfold run
    subst hpe
    subst hre
    have hnoany : (UpdateAll e t (GetFixableUpdates po pmo ms)).any
        (fun r => !r.Success) = false := by
      rw [List.any_eq_false]
      intro r hr
      have := List.all_eq_true.1 hall r hr
      simp at this
      simp [this]
    by_cases hlen : (GetFixableUpdates po pmo ms).length = 0
    · simp [hlen]
    · simp [hlen, hnoany]
  · unfold run
    subst hpe
    subst hre
    have hlen : (GetFixableUpdates po pmo ms).length ≠ 0 := by
      intro hcon
      have hnil := List.length_eq_zero.1 hcon
      rw [hnil] at hany
      have : UpdateAll e t ([] : List PackageUpdate) = [] := rfl
      rw [this] at hany
      simp at hany
    simp [hlen, hany]

/-- Witness for C7: concrete instances of each hypothesis-bearing case — a
scanner-init error exits 2, a scan error exits 2, an empty update list exits
0, a succeeding one-update run exits 0, a failing one-update run exits 1,
and the tidy outcome is irrelevant. -/
theorem run_exit_codes_witness :
    run (fun _ => true) (fun _ _ => true) (some "db".toList)
        (.ok []) none (fun _ => none) none none = 2
    ∧ run (fun _ => true) (fun _ _ => true) none
        (.error "scan".toList) none (fun _ => none) none none = 2
    ∧ run (fun _ => true) (fun _ _ => true) none (.ok []) none
        (fun _ => none) none none = 0
    ∧ run (fun _ => true) (fun _ _ => true) none
        (.ok [⟨⟨"m.example/a".toList, "v1.0.0".toList, "go-module".toList⟩,
          ⟨"CVE-9".toList, ⟨["1.0.1".toList], "fixed".toList⟩, none⟩⟩])
        none (fun _ => none) (some "tidyfail".toList) none = 0
    ∧ run (fun _ => true) (fun _ _ => true) none
        (.ok [⟨⟨"m.example/a".toList, "v1.0.0".toList, "go-module".toList⟩,
          ⟨"CVE-9".toList, ⟨["1.0.1".toList], "fixed".toList⟩, none⟩⟩])
        none (fun _ => some "refused".toList) (some "tidyfail".toList) none = 1 :=
  ⟨(run_exit_codes (fun _ => true) (fun _ _ => true) (some "db".toList) (.ok [])
      none (fun _ => none) none none none).1 (by decide),
    (run_exit_codes (fun _ => true) (fun _ _ => true) none (.ok []) none
      (fun _ => none) none none none).2.1 "scan".toList,
    (run_exit_codes (fun _ => true) (fun _ _ => true) none (.ok []) none
      (fun _ => none) none none none).2.2.1 [] (by decide),
    (run_exit_codes (fun _ => true) (fun _ _ => true) none (.ok []) none
      (fun _ => none) (some "tidyfail".toList) none none).2.2.2.2.2.1
      [⟨⟨"m.example/a".toList, "v1.0.0".toList, "go-module".toList⟩,
        ⟨"CVE-9".toList, ⟨["1.0.1".toList], "fixed".toList⟩, none⟩⟩]
      rfl rfl (by decide),
    (run_exit_codes (fun _ => true) (fun _ _ => true) none (.ok []) none
      (fun _ => some "refused".toList) (some "tidyfail".toList) none none).2.2.2.2.2.2.1
      [⟨⟨"m.example/a".toList, "v1.0.0".toList, "go-module".toList⟩,
        ⟨"CVE-9".toList, ⟨["1.0.1".toList], "fixed".toList⟩, none⟩⟩]
      rfl rfl (by decide)⟩

end Grump
